import Mathlib

/-!
Shallow embedding of the resume-analyzer repository.

`Analyzer` models `src/backend/analyzer.js` (the pure analysis engine);
`Server` models the upload-processing pipeline of `src/backend/server.js`.

Strings are handled through their underlying character lists (`String.data`)
so that every definition is executable by the kernel.  JavaScript numbers are
modelled as `Nat` (every quantity in the analyzer is a non-negative integer;
`Math.round` on the non-negative coverage ratio is exact rational half-up
rounding, modelled by `roundHalfUp`).  JavaScript `str.length` counts UTF-16
code units; the model counts characters, which agrees on all the
basic-multilingual-plane text the analyzer manipulates.
-/

namespace Analyzer

/-- Character test for the JavaScript `\s` whitespace class
(used by `trim` and by the regex `[^\S\n]`). -/
def jsWs (c : Char) : Bool :=
  c.toNat = 9 || c.toNat = 10 || c.toNat = 11 || c.toNat = 12 || c.toNat = 13 ||
  c.toNat = 32 || c.toNat = 160 || c.toNat = 0x1680 ||
  (0x2000 ≤ c.toNat && c.toNat ≤ 0x200a) ||
  c.toNat = 0x2028 || c.toNat = 0x2029 || c.toNat = 0x202f ||
  c.toNat = 0x205f || c.toNat = 0x3000 || c.toNat = 0xfeff

/-- Whitespace other than newline: the regex class `[^\S\n]` of `normalize`. -/
def wsNoNl (c : Char) : Bool := jsWs c && !(c.toNat = 10)

/-- ASCII lower-casing, modelling `String.prototype.toLowerCase` on the
ASCII range (the only range the analyzer's catalogs and regexes use). -/
def lowerChar (c : Char) : Char :=
  if 65 ≤ c.toNat && c.toNat ≤ 90 then Char.ofNat (c.toNat + 32) else c

/-- Model of `.replace(/\r\n/g, "\n")` in `normalize` (analyzer.js line 39). -/
def stripCr : List Char → List Char
  | [] => []
  | '\r' :: '\n' :: rest => '\n' :: stripCr rest
  | c :: rest => c :: stripCr rest

/-- Model of `.replace(/[^\S\n]+/g, " ")` in `normalize` (analyzer.js line 40):
every maximal run of non-newline whitespace becomes a single space. -/
def collapseWs : List Char → List Char
  | [] => []
  | [c] => if wsNoNl c then [' '] else [c]
  | c :: d :: rest =>
    if wsNoNl c then
      if wsNoNl d then collapseWs (d :: rest)
      else ' ' :: collapseWs (d :: rest)
    else c :: collapseWs (d :: rest)

/-- Model of `normalize` (analyzer.js lines 37-42), producing the character
list of the normalized text. -/
def normalizeChars (s : String) : List Char :=
  (collapseWs (stripCr s.data)).map lowerChar

/-- Model of `normalize` as a string. -/
def normalize (s : String) : String := String.mk (normalizeChars s)

/-- Characters of the regex class `[a-z0-9]` used as the word-boundary class
of `includesWord` (analyzer.js line 48); under the `i` flag the class also
covers `A-Z`, which the model accounts for by lower-casing its inputs. -/
def isWordChar (c : Char) : Bool :=
  (97 ≤ c.toNat && c.toNat ≤ 122) || (48 ≤ c.toNat && c.toNat ≤ 57)

/-- Does `word` sit at the front of `text`?  Returns the rest of `text` after
the occurrence (the regex engine consuming the escaped literal `word`). -/
def eatWord : List Char → List Char → Option (List Char)
  | [], rest => some rest
  | _ :: _, [] => none
  | w :: ws, t :: ts => if w = t then eatWord ws ts else none

/-- Left flank of an occurrence: `(^|[^a-z0-9])` — start of string or a
non-alphanumeric character. -/
def boundaryB : Option Char → Bool
  | none => true
  | some c => !isWordChar c

/-- Right flank of an occurrence: `([^a-z0-9]|$)`. -/
def tailBoundary : List Char → Bool
  | [] => true
  | c :: _ => !isWordChar c

/-- Does `word` occur at the very front of `text` with a good right flank? -/
def checkHere (word text : List Char) : Bool :=
  match eatWord word text with
  | some rest => tailBoundary rest
  | none => false

/-- Scan of the regex `(^|[^a-z0-9])word([^a-z0-9]|$)` over `text`; `prev` is
the character just before the current position (`none` at the start). -/
def scanWord (word : List Char) (prev : Option Char) : List Char → Bool
  | [] => boundaryB prev && checkHere word []
  | c :: ts => (boundaryB prev && checkHere word (c :: ts)) || scanWord word (some c) ts

/-- Core of `includesWord` on already lower-cased character lists. -/
def includesWordCore (text word : List Char) : Bool :=
  if word = [] then false else scanWord word none text

/-- Model of `includesWord` (analyzer.js lines 44-50): the escaped `word` must
occur in `text` flanked by non-alphanumeric characters or string edges,
case-insensitively (the regex `i` flag is modelled by lower-casing both
sides). -/
def includesWord (text word : String) : Bool :=
  includesWordCore (text.data.map lowerChar) (word.data.map lowerChar)

/-- The section hints of `detectSections` (analyzer.js lines 53-59). -/
def sectionHints : List (String × List String) :=
  [("summary", ["summary", "professional summary", "profile"]),
   ("experience", ["experience", "work experience", "employment"]),
   ("education", ["education", "academics"]),
   ("skills", ["skills", "technical skills", "core skills"]),
   ("projects", ["projects", "project experience"])]

/-- Model of `detectSections` (analyzer.js lines 52-71): the keys, in hint
order, whose label synonyms word-boundary-match the text (the JS `Set`
iterates in insertion order, which is hint order). -/
def detectSections (text : String) : List String :=
  (sectionHints.filter (fun s => s.2.any (fun l => includesWord text l))).map (fun s => s.1)

/-- Exact half-up rounding of the fraction `num / den`, the behaviour of
`Math.round` on a non-negative ratio (analyzer.js line 79). -/
def roundHalfUp (num den : Nat) : Nat := (2 * num + den) / (2 * den)

/-- Skill-coverage part of the score (analyzer.js lines 76-79):
`Math.round(60 * found / (found + missing))`, `0` when both lists are empty. -/
def skillCoverageScore (skillsFound missingSkills : List String) : Nat :=
  let totalSkills := skillsFound.length + missingSkills.length
  if totalSkills = 0 then 0 else roundHalfUp (60 * skillsFound.length) totalSkills

/-- The fixed per-section weights of the structure score (analyzer.js
lines 83-89). -/
def sectionPoints : List (String × Nat) :=
  [("summary", 5), ("experience", 10), ("education", 5), ("skills", 5), ("projects", 5)]

/-- Structure part of the score (analyzer.js lines 90-92). -/
def structureScore (sectionsFound : List String) : Nat :=
  (sectionPoints.filter (fun p => sectionsFound.contains p.1)).foldl (fun a p => a + p.2) 0

/-- Characters of the regex `\w` class `[A-Za-z0-9_]`, governing `\b`. -/
def isRegexWordChar (c : Char) : Bool :=
  (65 ≤ c.toNat && c.toNat ≤ 90) || (97 ≤ c.toNat && c.toNat ≤ 122) ||
  (48 ≤ c.toNat && c.toNat ≤ 57) || c.toNat = 95

/-- Digit test, the regex `\d`. -/
def isDigitChar (c : Char) : Bool := 48 ≤ c.toNat && c.toNat ≤ 57

/-- A `\b` boundary before the current position: previous character absent or
not a `\w` character. -/
def bBoundary : Option Char → Bool
  | none => true
  | some c => !isRegexWordChar c

/-- Right side of `\b\d{4}\b`: the next character, if any, is not `\w`. -/
def afterFour : List Char → Bool
  | [] => true
  | c :: _ => !isRegexWordChar c

/-- Scan of `\b\d{4}\b`: four digits flanked by word boundaries. -/
def scanFourDigit (prev : Option Char) : List Char → Bool
  | [] => false
  | c :: ts =>
    (bBoundary prev && isDigitChar c &&
      (match ts with
       | a :: b :: d :: rest => isDigitChar a && isDigitChar b && isDigitChar d && afterFour rest
       | _ => false)) ||
    scanFourDigit (some c) ts

/-- Scan of `\b\d+%|\b\d+\+`: a boundary-started digit run followed directly
by `%` or `+`. -/
def scanNumSig (prev : Option Char) : List Char → Bool
  | [] => false
  | c :: ts =>
    (bBoundary prev && isDigitChar c &&
      (match ts.dropWhile isDigitChar with
       | x :: _ => x = '%' || x = '+'
       | [] => false)) ||
    scanNumSig (some c) ts

/-- Model of the quantifiable-signal test (analyzer.js line 97 and the
suggestion condition on line 150): `\b\d{4}\b` or `\b\d+%|\b\d+\+`. -/
def hasQuantSignal (text : List Char) : Bool :=
  scanFourDigit none text || scanNumSig none text

/-- Step of the bullet-line scan: can a match of `(^|\n)\s*` end just before
the current position?  `True` initially; a newline re-enables it, whitespace
preserves it, any other character disables it. -/
def bulletStep (canStart : Bool) (c : Char) : Bool :=
  if c.toNat = 10 then true else if jsWs c then canStart else false

/-- Right part of the bullet regex, `\s+\S+`: at least one whitespace
character, then, after more whitespace, a non-whitespace character. -/
def afterBullet : List Char → Bool
  | [] => false
  | c :: rest => jsWs c && !(rest.dropWhile jsWs = [])

/-- Scan of `(^|\n)\s*[-•*]\s+\S+` (analyzer.js lines 96 and 147). -/
def scanBullet (canStart : Bool) : List Char → Bool
  | [] => false
  | c :: ts =>
    (canStart && (c = '-' || c = '•' || c = '*') && afterBullet ts) ||
    scanBullet (bulletStep canStart c) ts

/-- Model of the bullet-line test `(^|\n)\s*[-•*]\s+\S+` (analyzer.js
lines 96 and 147). -/
def hasBulletLine (text : List Char) : Bool := scanBullet true text

/-- Model of `scoreFromHeuristics` (analyzer.js lines 73-106). -/
def scoreFromHeuristics (text : List Char)
    (skillsFound missingSkills sectionsFound : List String) : Nat :=
  let s1 := skillCoverageScore skillsFound missingSkills
  let s2 := s1 + structureScore sectionsFound
  let s3 := min s2 (60 + 25)
  let len := text.length
  let s4 := s3 + (if 1200 ≤ len then 5 else 0) + (if 2500 ≤ len then 3 else 0) +
    (if hasBulletLine text then 4 else 0) + (if hasQuantSignal text then 3 else 0)
  max 0 (min 100 s4)

/-- The built-in skill catalog `DEFAULT_SKILLS` (analyzer.js lines 8-35). -/
def DEFAULT_SKILLS : List String :=
  ["javascript", "typescript", "node", "express", "react", "html", "css", "rest",
   "api", "git", "sql", "python", "java", "aws", "azure", "docker", "kubernetes",
   "agile", "scrum", "jira", "testing", "unit testing", "ci/cd"]

/-- Characters of `String.prototype.trim`: both ends stripped of `\s`. -/
def jsTrimChars (l : List Char) : List Char :=
  ((l.dropWhile jsWs).reverse.dropWhile jsWs).reverse

/-- Model of `String.prototype.trim`. -/
def jsTrim (s : String) : String := String.mk (jsTrimChars s.data)

/-- First-occurrence deduplication, the behaviour of `new Set(...)` iterated
in insertion order; `seen` holds the values already emitted. -/
def dedupAux (seen : List String) : List String → List String
  | [] => []
  | x :: xs => if seen.contains x then dedupAux seen xs else x :: dedupAux (x :: seen) xs

/-- Model of the `unique` helper (analyzer.js lines 130-131): map to trimmed
values, deduplicate keeping first occurrences, drop empty strings. -/
def unique (arr : List String) : List String :=
  (dedupAux [] (arr.map jsTrim)).filter (fun s => !(s.data = []))

/-- Lexicographic code-point comparison of character lists.  This models the
comparator `(a, b) => a.localeCompare(b)` (analyzer.js lines 133-134): the
external collator agrees with code-point order on the lower-case ASCII skill
labels this repository sorts. -/
def leChars : List Char → List Char → Bool
  | [], _ => true
  | _ :: _, [] => false
  | a :: as, b :: bs =>
    if a.toNat < b.toNat then true
    else if b.toNat < a.toNat then false
    else leChars as bs

/-- String order induced by `leChars`. -/
def strLe (a b : String) : Prop := leChars a.data b.data = true

instance decStrLe : DecidableRel strLe :=
  fun a b => inferInstanceAs (Decidable (leChars a.data b.data = true))

/-- Model of `.sort((a, b) => a.localeCompare(b))`: a stable sort by `strLe`
(JavaScript `Array.prototype.sort` is stable). -/
def sortStrings (l : List String) : List String := List.insertionSort strLe l

/-- Character list of `String(rawSkill).trim().toLowerCase()` (analyzer.js
line 124). -/
def skillKeyChars (r : String) : List Char := (jsTrimChars r.data).map lowerChar

/-- The trimmed, lower-cased lookup key of a catalog entry. -/
def skillKey (r : String) : String := String.mk (skillKeyChars r)

/-- Entry predicate of the partition loop (analyzer.js lines 123-127): the
key is non-empty and word-boundary-matches the text. -/
def skillMatched (text r : String) : Bool :=
  !(skillKeyChars r = []) && includesWord text (skillKey r)

/-- Entry predicate for the missing side of the partition loop: the key is
non-empty and does not match the text. -/
def skillUnmatched (text r : String) : Bool :=
  !(skillKeyChars r = []) && !(includesWord text (skillKey r))

/-- Resolution of `options.targetSkills` (analyzer.js lines 116-118): a
present, non-empty array is used; otherwise `DEFAULT_SKILLS`. -/
def effectiveSkills (options : Option (List String)) : List String :=
  match options with
  | some ts => if ts.length ≠ 0 then ts else DEFAULT_SKILLS
  | none => DEFAULT_SKILLS

/-- The `skillsFound` output (analyzer.js line 133): matched entries, trimmed,
deduplicated, sorted.  The push loop of lines 123-127 appends matched entries
in catalog order, which is the order-preserving filter. -/
def foundUnique (text : String) (targetSkills : List String) : List String :=
  sortStrings (unique (targetSkills.filter (skillMatched text)))

/-- The `missingSkills` output (analyzer.js line 134). -/
def missingUnique (text : String) (targetSkills : List String) : List String :=
  sortStrings (unique (targetSkills.filter (skillUnmatched text)))

/-- Join with `", "`, the `.join(", ")` of analyzer.js line 155. -/
def commaJoin : List String → List Char
  | [] => []
  | [s] => s.data
  | s :: rest => s.data ++ ',' :: ' ' :: commaJoin rest

/-- The missing-keywords suggestion text (analyzer.js lines 154-156): the
first 8 missing skills joined with `", "`, then `", ..."` when more than 8
remain. -/
def missingSuggestionText (missing : List String) : String :=
  String.mk ("If relevant, include missing keywords naturally: ".data ++
    commaJoin (missing.take 8) ++ (if 8 < missing.length then ", ...".data else []))

/-- The six sequential suggestion pushes (analyzer.js lines 139-160), one
conditional singleton per push, concatenated in program order. -/
def buildSuggestions (text : List Char) (sectionsFound missingU : List String) : List String :=
  (if !(sectionsFound.contains "skills")
    then ["Add a dedicated \x27Skills\x27 section with relevant keywords."] else []) ++
  (if !(sectionsFound.contains "experience")
    then ["Add a \x27Work Experience\x27 section with role details and impact."] else []) ++
  (if !(hasBulletLine text)
    then ["Use bullet points for responsibilities and achievements."] else []) ++
  (if !(hasQuantSignal text)
    then ["Add measurable results (%, numbers) and dates to strengthen impact."] else []) ++
  (if decide (0 < missingU.length)
    then [missingSuggestionText missingU] else []) ++
  (if decide (text.length < 900)
    then ["Add more detail (projects, tools, accomplishments) — the resume looks too short."] else [])

/-- The output record of the engine (analyzer.js lines 162-167). -/
structure AnalysisResult where
  atsScore : Nat
  skillsFound : List String
  missingSkills : List String
  suggestions : List String
deriving Repr, DecidableEq

/-- Model of `analyzeResume` (analyzer.js lines 114-168).  `options` is
`some ts` for a call with `{ targetSkills: ts }` and `none` for a call with
no options. -/
def analyzeResume (resumeText : String) (options : Option (List String)) : AnalysisResult :=
  let text := normalize resumeText
  let targetSkills := effectiveSkills options
  let foundU := foundUnique text targetSkills
  let missingU := missingUnique text targetSkills
  let sectionsFound := detectSections text
  { atsScore := scoreFromHeuristics text.data foundU missingU sectionsFound
    skillsFound := foundU
    missingSkills := missingU
    suggestions := buildSuggestions text.data sectionsFound missingU }

end Analyzer

namespace Server

/-- The hard upload cap `MAX_UPLOAD_BYTES = 200 * 1024` (server.js line 67). -/
def MAX_UPLOAD_BYTES : Nat := 200 * 1024

/-- The multer file record as the handler sees it (server.js): declared name,
declared mime type, and its byte size.  The model uses one size for both
`req.file.size` and the `fs.stat` of the temp file, which the pipeline writes
once and never mutates. -/
structure UploadFile where
  originalname : String
  mimetype : String
  size : Nat
deriving Repr, DecidableEq

/-- Outcome of the external `pdf-parse` collaborator on the uploaded bytes:
`ok text` for `String(parsed.text || "")`, or a parse failure (corrupt,
encrypted, unsupported PDF). -/
inductive PdfParseOutcome where
  | ok (text : String)
  | failure
deriving Repr, DecidableEq

/-- Per-request environment facts the pipeline consumes: what `pdf-parse`
would return on these bytes, the UTF-8 decoding of the bytes for the text
path, whether the 15-second deadline elapses before processing settles, and
whether the final `fs.unlink` of the temp file fails. -/
structure RequestEnv where
  file : Option UploadFile
  pdfOutcome : PdfParseOutcome
  txtContent : String
  timedOut : Bool
  unlinkFails : Bool
deriving Repr, DecidableEq

/-- Case-insensitive ASCII lowering for names and mime types. -/
def lowerStr (s : String) : String := String.mk (s.data.map Analyzer.lowerChar)

/-- Suffix test over character lists (model of `String.prototype.endsWith`). -/
def endsWithChars (suffix s : List Char) : Bool := suffix.isSuffixOf s

/-- Type sniffing for PDF (server.js lines 145, 90): declared content type or
filename extension, case-insensitively. -/
def declaredPdf (f : UploadFile) : Bool :=
  lowerStr f.mimetype = "application/pdf" || endsWithChars ".pdf".data (lowerStr f.originalname).data

/-- Type sniffing for plain text (server.js lines 146, 91). -/
def declaredTxt (f : UploadFile) : Bool :=
  lowerStr f.mimetype = "text/plain" || endsWithChars ".txt".data (lowerStr f.originalname).data

/-- A JSON envelope response: HTTP status, `success`, optional `data`,
optional `message`. -/
structure Response where
  status : Nat
  success : Bool
  data : Option Analyzer.AnalysisResult
  message : Option String
deriving Repr, DecidableEq

/-- Error response helper (`res.status(s).json({ success: false, message })`). -/
def errResponse (status : Nat) (message : String) : Response :=
  { status := status, success := false, data := none, message := some message }

/-- Result of the extraction step: the extracted text, or a thrown error
carrying `err.statusCode` and `err.message`. -/
inductive ExtractResult where
  | ok (text : String)
  | failed (status : Nat) (message : String)
deriving Repr, DecidableEq

/-- Result of `extractTextFromUpload` together with whether the external
`pdf-parse` extractor was invoked on the bytes. -/
structure ExtractOutcome where
  result : ExtractResult
  extractorInvoked : Bool
deriving Repr, DecidableEq

/-- Model of `extractTextFromUpload` (server.js lines 141-209): the PDF path
checks the on-disk size before reading, invokes `pdf-parse`, normalizes its
failures and rejects over-long extractions; the text path checks the size and
decodes UTF-8; anything else is an unsupported type.  The `Except` error
carries `err.statusCode` and `err.message`. -/
def extractTextFromUpload (f : UploadFile) (env : RequestEnv) : ExtractOutcome :=
  if declaredPdf f then
    if MAX_UPLOAD_BYTES < f.size then
      { result := .failed 413 "File too large. Please upload a resume up to 200 KB."
        extractorInvoked := false }
    else
      match env.pdfOutcome with
      | .failure =>
        { result := .failed 400 "Could not read PDF. Ensure it is not password-protected, corrupted, or overly complex."
          extractorInvoked := true }
      | .ok text =>
        if 50000 < text.data.length then
          { result := .failed 400 "PDF contains too much text. Please use a simpler resume file."
            extractorInvoked := true }
        else
          { result := .ok text, extractorInvoked := true }
  else if declaredTxt f then
    if MAX_UPLOAD_BYTES < f.size then
      { result := .failed 413 "File too large. Please upload a resume up to 200 KB."
        extractorInvoked := false }
    else if 50000 < env.txtContent.data.length then
      { result := .failed 400 "Text file is too large. Please use a simpler resume file."
        extractorInvoked := false }
    else
      { result := .ok env.txtContent, extractorInvoked := false }
  else
    { result := .failed 400 "Unsupported file type. Please upload a PDF or TXT resume."
      extractorInvoked := false }

/-- What the `try` block of the `/analyze` handler produces: the response,
the text handed to `analyzeResume` on the success path, and whether the
extractor was invoked. -/
structure TryOutcome where
  response : Response
  analyzedText : Option String
  extractorInvoked : Bool
deriving Repr, DecidableEq

/-- Observable outcome of one `/analyze` request: the response plus whether
the temporary upload file still exists after the handler finished. -/
structure HandlerOutcome where
  response : Response
  analyzedText : Option String
  extractorInvoked : Bool
  tempFileRemains : Bool
deriving Repr, DecidableEq

/-- Model of the `try`/`catch` body of `app.post("/analyze")` (server.js
lines 224-309), in program order: missing-file check (line 225), the
application-level size guard (line 237), the extraction racing the deadline
(lines 246-247; the extraction promise is created before the race, so the
extractor may be invoked even when the deadline wins), the thrown-error
paths folded through the `catch` block (timeout → 504, `err.statusCode`
otherwise), the minimum-content guard (line 249), and the success envelope
(lines 274-282). -/
def tryAnalyze (env : RequestEnv) : TryOutcome :=
  match env.file with
  | none =>
    { response := errResponse 400 "No file uploaded. Please attach a resume using form field name \x27file\x27."
      analyzedText := none, extractorInvoked := false }
  | some f =>
    if MAX_UPLOAD_BYTES < f.size then
      { response := errResponse 413 "File too large. Please upload a resume up to 200 KB."
        analyzedText := none, extractorInvoked := false }
    else
      let ex := extractTextFromUpload f env
      if env.timedOut then
        { response := errResponse 504 "Processing took too long. Please try a smaller or simpler resume file."
          analyzedText := none, extractorInvoked := ex.extractorInvoked }
      else
        match ex.result with
        | .failed st msg =>
          { response := errResponse st msg
            analyzedText := none, extractorInvoked := ex.extractorInvoked }
        | .ok text =>
          if text.data.length = 0 ∨ (Analyzer.jsTrimChars text.data).length < 30 then
            { response := errResponse 400 "Could not extract enough text from the resume. Try a different PDF/TXT."
              analyzedText := none, extractorInvoked := ex.extractorInvoked }
          else
            { response :=
                { status := 200, success := true
                  data := some (Analyzer.analyzeResume text none), message := none }
              analyzedText := some text, extractorInvoked := ex.extractorInvoked }

/-- The `finally` block (server.js lines 310-322): when a temp file was
created (`tmpPath` was set, i.e. a file arrived), `fs.unlink` is attempted;
its failure is only logged, so the file remains exactly when the unlink
fails.  Returns whether the temp file still exists. -/
def finallyCleanup (tempCreated unlinkFails : Bool) : Bool :=
  if tempCreated then unlinkFails else false

/-- Model of one full `/analyze` request (server.js lines 211-323): the `try`
body followed by the unconditional `finally` cleanup. -/
def analyzeHandler (env : RequestEnv) : HandlerOutcome :=
  let t := tryAnalyze env
  { response := t.response
    analyzedText := t.analyzedText
    extractorInvoked := t.extractorInvoked
    tempFileRemains := finallyCleanup env.file.isSome env.unlinkFails }

/-- A concrete over-sized upload declared as PDF (300000 bytes > 200 KB cap). -/
def oversizedPdfFile : UploadFile := ⟨"resume.pdf", "application/pdf", 300000⟩

/-- A concrete request environment carrying the over-sized PDF upload. -/
def oversizedPdfEnv : RequestEnv := ⟨some oversizedPdfFile, .failure, "", false, false⟩

/-- A concrete small plain-text upload. -/
def okTxtFile : UploadFile := ⟨"resume.txt", "text/plain", 100⟩

/-- A concrete request whose text upload decodes to 45 characters of content. -/
def okTxtEnv : RequestEnv :=
  ⟨some okTxtFile, .failure, "worked on java services for several years now", false, false⟩

end Server

namespace Analyzer

instance strLeTotalInst : IsTotal String strLe := by
  constructor
  intro a b
  show leChars a.data b.data = true ∨ leChars b.data a.data = true
  generalize a.data = x
  generalize b.data = y
  induction x generalizing y with
  | nil => exact Or.inl rfl
  | cons c cs ih =>
    cases y with
    | nil => exact Or.inr rfl
    | cons d ds =>
      by_cases h1 : c.toNat < d.toNat
      · exact Or.inl (by simp [leChars, h1])
      · by_cases h2 : d.toNat < c.toNat
        · exact Or.inr (by simp [leChars, h2])
        · have htails := ih ds
          cases htails with
          | inl h => exact Or.inl (by simp [leChars, h1, h2]; exact h)
          | inr h => exact Or.inr (by simp [leChars, h1, h2]; exact h)

instance strLeTransInst : IsTrans String strLe := by
  constructor
  intro a b c hab hbc
  show leChars a.data c.data = true
  have key : ∀ (x y z : List Char), leChars x y = true → leChars y z = true →
      leChars x z = true := by
    intro x
    induction x with
    | nil => intro y z _ _; rfl
    | cons cx xs ih =>
      intro y z hxy hyz
      cases y with
      | nil => simp [leChars] at hxy
      | cons cy ys =>
        cases z with
        | nil => simp [leChars] at hyz
        | cons cz zs =>
          simp only [leChars] at hxy hyz ⊢
          by_cases h1 : cx.toNat < cy.toNat <;> by_cases h2 : cy.toNat < cz.toNat
          · simp [Nat.lt_trans h1 h2]
          · by_cases h3 : cz.toNat < cy.toNat
            · simp [h2, h3] at hyz
            · have hcz : cx.toNat < cz.toNat := by omega
              simp [hcz]
          · by_cases h3 : cy.toNat < cx.toNat
            · simp [h1, h3] at hxy
            · have hcz : cx.toNat < cz.toNat := by omega
              simp [hcz]
          · by_cases h3 : cy.toNat < cx.toNat
            · simp [h1, h3] at hxy
            · by_cases h4 : cz.toNat < cy.toNat
              · simp [h2, h4] at hyz
              · simp only [h1, h3, if_false, ite_false] at hxy
                simp only [h2, h4, if_false, ite_false] at hyz
                have e1 : ¬cx.toNat < cz.toNat := by omega
                have e2 : ¬cz.toNat < cx.toNat := by omega
                simp only [e1, e2, if_false, ite_false]
                exact ih ys zs hxy hyz
  exact key a.data b.data c.data hab hbc

/-- Left-flank condition of an occurrence after prefix `pre`, seen from a
scan that entered the text with previous character `prev`: the character just
before the occurrence is the last of `pre` (or `prev` when `pre` is empty). -/
def preBoundary (prev : Option Char) (pre : List Char) : Bool :=
  match pre.getLast? with
  | none => boundaryB prev
  | some c => !isWordChar c

/-- Spec-side notion for claim C4: `word` occurs in `text` flanked on the
left by the string edge or a non-alphanumeric character and on the right by
the string edge or a non-alphanumeric character. -/
def FlankedOccurrence (text word : List Char) : Prop :=
  ∃ pre suf, text = pre ++ word ++ suf ∧
    (∀ c, pre.getLast? = some c → isWordChar c = false) ∧
    (∀ c, suf.head? = some c → isWordChar c = false)

/-- The skill-coverage component of the score `analyzeResume` computes:
`skillCoverageScore` applied to the deduplicated partition the call builds
(analyzer.js lines 76-79 applied to the lists of lines 133-134). -/
def coverageComponent (T : String) (options : Option (List String)) : Nat :=
  skillCoverageScore (foundUnique (normalize T) (effectiveSkills options))
    (missingUnique (normalize T) (effectiveSkills options))

/-- Spec-side formula for the amended claim C1: half-up rounding of
`60 * matchedCount / totalCatalogCount` computed over the deduplicated
(trimmed, empties dropped) effective catalog; `0` when that catalog is
empty. -/
def dedupCatalogCoverage (T : String) (options : Option (List String)) : Nat :=
  let u := unique (effectiveSkills options)
  let m := (u.filter (fun s => includesWord (normalize T) s)).length
  if u.length = 0 then 0 else roundHalfUp (60 * m) u.length

/-- Spec-side suggestion rules for claim C3, in the spec's order: each rule
is an independent condition paired with its message (spec section 4.2). -/
def specSuggestionPairs (T : String) (options : Option (List String)) : List (Bool × String) :=
  let text := normalize T
  let missing := (analyzeResume T options).missingSkills
  [(!((detectSections text).contains "skills"),
      "Add a dedicated \x27Skills\x27 section with relevant keywords."),
   (!((detectSections text).contains "experience"),
      "Add a \x27Work Experience\x27 section with role details and impact."),
   (!(hasBulletLine text.data),
      "Use bullet points for responsibilities and achievements."),
   (!(hasQuantSignal text.data),
      "Add measurable results (%, numbers) and dates to strengthen impact."),
   (decide (0 < missing.length), missingSuggestionText missing),
   (decide (text.data.length < 900),
      "Add more detail (projects, tools, accomplishments) — the resume looks too short.")]

/-- Spec-side suggestion list for claim C3: exactly the messages of the rules
whose conditions hold, in rule order — no rule suppresses another. -/
def specSuggestions (T : String) (options : Option (List String)) : List String :=
  ((specSuggestionPairs T options).filter (fun p => p.1)).map (fun p => p.2)

end Analyzer

/-- Claim C5: for every input text and every catalog option — including an
empty catalog override and empty or minimal text — the `atsScore` returned by
`analyzeResume` is an integer (a `Nat` by construction in the model) in the
inclusive range `[0, 100]`. -/
theorem C5_atsScore_in_range (resumeText : String) (options : Option (List String)) :
    0 ≤ (Analyzer.analyzeResume resumeText options).atsScore ∧
    (Analyzer.analyzeResume resumeText options).atsScore ≤ 100 := by
  refine ⟨Nat.zero_le _, ?_⟩
  show max 0 (min 100 _) ≤ 100
  exact max_le (Nat.zero_le _) (min_le_left _ _)

/-- Claim C10: calling `analyzeResume` with `options.targetSkills = []` returns
the same `AnalysisResult` as calling it with no options: the empty override is
silently replaced by the built-in `DEFAULT_SKILLS` catalog. -/
theorem C10_empty_catalog_override_uses_default (resumeText : String) :
    Analyzer.analyzeResume resumeText (some []) = Analyzer.analyzeResume resumeText none := rfl

/-- Claim C7: on every exit path of the `/analyze` pipeline — normal
completion, validation failure, extraction failure, or timeout — the temporary
upload file is deleted (it remains only when the deletion itself fails, and
only when a file was uploaded at all), and a failing deletion never changes
the response returned to the caller. -/
theorem C7_temp_file_always_deleted (file : Option Server.UploadFile)
    (pdfOutcome : Server.PdfParseOutcome) (txtContent : String) (timedOut u₁ u₂ : Bool) :
    (Server.analyzeHandler ⟨file, pdfOutcome, txtContent, timedOut, u₁⟩).tempFileRemains =
      (file.isSome && u₁) ∧
    (Server.analyzeHandler ⟨file, pdfOutcome, txtContent, timedOut, u₁⟩).response =
      (Server.analyzeHandler ⟨file, pdfOutcome, txtContent, timedOut, u₂⟩).response := by
  refine ⟨?_, rfl⟩
  show Server.finallyCleanup file.isSome u₁ = (file.isSome && u₁)
  cases file <;> simp [Server.finallyCleanup]

/-- Claim C8: an upload declared as a PDF whose size exceeds the 200 KB bound
is answered with the 413 payload-too-large outcome and the external
`pdf-parse` extractor is never invoked on its bytes — both at the handler's
application-level guard and inside `extractTextFromUpload` itself. -/
theorem C8_oversized_pdf_rejected_without_extractor (env : Server.RequestEnv)
    (f : Server.UploadFile) (hf : env.file = some f) (hpdf : Server.declaredPdf f = true)
    (hsize : Server.MAX_UPLOAD_BYTES < f.size) :
    (Server.analyzeHandler env).response.status = 413 ∧
    (Server.analyzeHandler env).extractorInvoked = false ∧
    (Server.extractTextFromUpload f env).result =
      .failed 413 "File too large. Please upload a resume up to 200 KB." ∧
    (Server.extractTextFromUpload f env).extractorInvoked = false := by
  unfold Server.analyzeHandler Server.tryAnalyze Server.extractTextFromUpload
  rw [hf]
  simp [hpdf, hsize, Server.errResponse]

/-- Witness for C8 at the concrete over-sized PDF environment. -/
theorem C8_oversized_pdf_witness :
    (Server.analyzeHandler Server.oversizedPdfEnv).response.status = 413 ∧
    (Server.analyzeHandler Server.oversizedPdfEnv).extractorInvoked = false ∧
    (Server.extractTextFromUpload Server.oversizedPdfFile Server.oversizedPdfEnv).result =
      .failed 413 "File too large. Please upload a resume up to 200 KB." ∧
    (Server.extractTextFromUpload Server.oversizedPdfFile Server.oversizedPdfEnv).extractorInvoked
      = false :=
  C8_oversized_pdf_rejected_without_extractor Server.oversizedPdfEnv Server.oversizedPdfFile
    rfl (by decide) (by decide)

/-- Claim C9: whenever the pipeline forwards an extracted text to the analyzer
(the per-request `ExtractedText` is present), that text is non-empty — indeed
its trimmed length is at least 30 — so extraction never succeeds with an
empty string at the request level. -/
theorem C9_extracted_text_nonempty (env : Server.RequestEnv) (t : String)
    (h : (Server.analyzeHandler env).analyzedText = some t) :
    0 < t.data.length ∧ 30 ≤ (Analyzer.jsTrimChars t.data).length := by
  have h' : (Server.tryAnalyze env).analyzedText = some t := h
  obtain ⟨file, pdfo, txt, timedOut, unlink⟩ := env
  cases file with
  | none => simp [Server.tryAnalyze] at h'
  | some f =>
    rw [Server.tryAnalyze] at h'
    by_cases h1 : Server.MAX_UPLOAD_BYTES < f.size
    · simp [h1] at h'
    · simp only [h1, if_false, ite_false] at h'
      cases timedOut with
      | true => simp at h'
      | false =>
        simp only [Bool.false_eq_true, if_false, ite_false] at h'
        cases hres : (Server.extractTextFromUpload f ⟨some f, pdfo, txt, false, unlink⟩).result with
        | failed st msg => rw [hres] at h'; simp at h'
        | ok text =>
          rw [hres] at h'
          dsimp only at h'
          by_cases hg : text.data.length = 0 ∨ (Analyzer.jsTrimChars text.data).length < 30
          · rw [if_pos hg] at h'
            simp at h'
          · rw [if_neg hg] at h'
            push_neg at hg
            obtain rfl : text = t := by simpa using h'
            exact ⟨Nat.pos_of_ne_zero hg.1, hg.2⟩

/-- Witness for C9 at the concrete successful text-upload environment. -/
theorem C9_extracted_text_witness :
    0 < ("worked on java services for several years now" : String).data.length ∧
    30 ≤ (Analyzer.jsTrimChars ("worked on java services for several years now" : String).data).length :=
  C9_extracted_text_nonempty Server.okTxtEnv "worked on java services for several years now"
    (by decide)

namespace Analyzer

theorem toNat_lowerChar (c : Char) :
    (lowerChar c).toNat = if 65 ≤ c.toNat ∧ c.toNat ≤ 90 then c.toNat + 32 else c.toNat := by
  unfold lowerChar
  by_cases h : 65 ≤ c.toNat ∧ c.toNat ≤ 90
  · rw [if_pos (by simp only [Bool.and_eq_true, decide_eq_true_eq]; exact h), if_pos h]
    have hv : (c.toNat + 32).isValidChar := Or.inl (by omega)
    unfold Char.ofNat
    rw [dif_pos hv]
    rfl
  · rw [if_neg (by simp only [Bool.and_eq_true, decide_eq_true_eq]; exact h), if_neg h]

theorem lowerChar_idem (c : Char) : lowerChar (lowerChar c) = lowerChar c := by
  have hnot : ¬(65 ≤ (lowerChar c).toNat ∧ (lowerChar c).toNat ≤ 90) := by
    rw [toNat_lowerChar]
    split_ifs with h <;> omega
  show (if 65 ≤ (lowerChar c).toNat && (lowerChar c).toNat ≤ 90 then
      Char.ofNat ((lowerChar c).toNat + 32) else lowerChar c) = lowerChar c
  rw [if_neg (by simp only [Bool.and_eq_true, decide_eq_true_eq]; exact hnot)]

theorem map_lowerChar_idem (l : List Char) :
    (l.map lowerChar).map lowerChar = l.map lowerChar := by
  induction l with
  | nil => rfl
  | cons c cs ih => simp [lowerChar_idem, ih]

theorem dropWhile_head_not (p : Char → Bool) :
    ∀ (l : List Char) (c : Char) (cs : List Char), l.dropWhile p = c :: cs → p c = false := by
  intro l
  induction l with
  | nil => intro c cs h; simp at h
  | cons a as ih =>
    intro c cs h
    rw [List.dropWhile_cons] at h
    split_ifs at h with hp
    · exact ih c cs h
    · injection h with h1 _
      subst h1
      simpa using hp

theorem dropWhile_dropWhile (p : Char → Bool) (l : List Char) :
    (l.dropWhile p).dropWhile p = l.dropWhile p := by
  cases h : l.dropWhile p with
  | nil => rfl
  | cons c cs =>
    rw [List.dropWhile_cons, if_neg (by simp [dropWhile_head_not p l c cs h])]

theorem dropWhile_suffix_exists (p : Char → Bool) (l : List Char) :
    ∃ t, t ++ l.dropWhile p = l := by
  induction l with
  | nil => exact ⟨[], rfl⟩
  | cons c cs ih =>
    rw [List.dropWhile_cons]
    split_ifs with h
    · obtain ⟨t, ht⟩ := ih
      exact ⟨c :: t, by simp [ht]⟩
    · exact ⟨[], rfl⟩

theorem jsTrimChars_idem (l : List Char) : jsTrimChars (jsTrimChars l) = jsTrimChars l := by
  unfold jsTrimChars
  have h1 : ∀ m : List Char,
      ((m.dropWhile jsWs).reverse.dropWhile jsWs).reverse.dropWhile jsWs =
      ((m.dropWhile jsWs).reverse.dropWhile jsWs).reverse := by
    intro m
    cases hrev : ((m.dropWhile jsWs).reverse.dropWhile jsWs).reverse with
    | nil => rfl
    | cons c cs =>
      obtain ⟨t, ht⟩ := dropWhile_suffix_exists jsWs (m.dropWhile jsWs).reverse
      have hA : m.dropWhile jsWs =
          ((m.dropWhile jsWs).reverse.dropWhile jsWs).reverse ++ t.reverse := by
        have h2 := congrArg List.reverse ht
        simpa [List.reverse_append] using h2.symm
      have hAc : m.dropWhile jsWs = c :: (cs ++ t.reverse) := by
        rw [hA, hrev]
        simp
      have hc : jsWs c = false := dropWhile_head_not jsWs m c _ hAc
      rw [List.dropWhile_cons, if_neg (by simp [hc])]
  rw [h1 l, List.reverse_reverse, dropWhile_dropWhile]

theorem jsTrim_idem (s : String) : jsTrim (jsTrim s) = jsTrim s :=
  congrArg String.mk (jsTrimChars_idem s.data)

theorem mem_dedupAux (x : String) :
    ∀ (l seen : List String), x ∈ dedupAux seen l ↔ x ∈ l ∧ x ∉ seen := by
  intro l
  induction l with
  | nil => intro seen; simp [dedupAux]
  | cons a as ih =>
    intro seen
    rw [dedupAux]
    have hca : seen.contains a = true ↔ a ∈ seen := by simp [List.contains]
    split_ifs with h
    · have ha : a ∈ seen := hca.mp h
      rw [ih seen]
      constructor
      · rintro ⟨hx, hns⟩
        exact ⟨List.mem_cons_of_mem a hx, hns⟩
      · rintro ⟨hx, hns⟩
        rcases List.mem_cons.mp hx with rfl | hx'
        · exact absurd ha hns
        · exact ⟨hx', hns⟩
    · have ha : a ∉ seen := fun hmem => h (hca.mpr hmem)
      simp only [List.mem_cons, ih (a :: seen)]
      constructor
      · rintro (rfl | ⟨hx, hns⟩)
        · exact ⟨Or.inl rfl, ha⟩
        · exact ⟨Or.inr hx, fun hs => hns (Or.inr hs)⟩
      · rintro ⟨rfl | hx, hns⟩
        · exact Or.inl rfl
        · by_cases hxa : x = a
          · exact Or.inl hxa
          · exact Or.inr ⟨hx, fun hor => hor.elim hxa hns⟩

theorem nodup_dedupAux : ∀ (l seen : List String), (dedupAux seen l).Nodup := by
  intro l
  induction l with
  | nil => intro seen; simp [dedupAux]
  | cons a as ih =>
    intro seen
    rw [dedupAux]
    split_ifs with h
    · exact ih seen
    · refine List.nodup_cons.mpr ⟨?_, ih (a :: seen)⟩
      intro hmem
      rcases (mem_dedupAux a as (a :: seen)).mp hmem with ⟨_, hns⟩
      exact hns (List.mem_cons_self a seen)

theorem mem_unique (arr : List String) (s : String) :
    s ∈ unique arr ↔ s ∈ arr.map jsTrim ∧ ¬s.data = [] := by
  unfold unique
  rw [List.mem_filter, mem_dedupAux]
  simp

theorem nodup_unique (arr : List String) : (unique arr).Nodup :=
  (nodup_dedupAux _ _).filter _

theorem unique_trim_fixed (arr : List String) (s : String) (h : s ∈ unique arr) :
    jsTrim s = s := by
  rcases (mem_unique arr s).mp h with ⟨hm, _⟩
  rcases List.mem_map.mp hm with ⟨r, _, rfl⟩
  exact jsTrim_idem r

theorem perm_sortStrings (l : List String) : List.Perm (sortStrings l) l :=
  List.perm_insertionSort _ _

theorem sorted_sortStrings (l : List String) : List.Sorted strLe (sortStrings l) :=
  List.sorted_insertionSort _ _

theorem mem_sortStrings {l : List String} {s : String} : s ∈ sortStrings l ↔ s ∈ l :=
  (perm_sortStrings l).mem_iff

theorem nodup_sortStrings {l : List String} (h : l.Nodup) : (sortStrings l).Nodup :=
  (perm_sortStrings l).nodup_iff.mpr h

theorem skillKeyChars_jsTrim (r : String) : skillKeyChars (jsTrim r) = skillKeyChars r :=
  congrArg (List.map lowerChar) (jsTrimChars_idem r.data)

theorem skillMatched_jsTrim (text r : String) :
    skillMatched text (jsTrim r) = skillMatched text r := by
  unfold skillMatched skillKey
  rw [skillKeyChars_jsTrim]

theorem skillUnmatched_jsTrim (text r : String) :
    skillUnmatched text (jsTrim r) = skillUnmatched text r := by
  unfold skillUnmatched skillKey
  rw [skillKeyChars_jsTrim]

theorem matched_or_unmatched (text r : String) (h : ¬skillKeyChars r = []) :
    skillMatched text r = true ∨ skillUnmatched text r = true := by
  unfold skillMatched skillUnmatched
  cases hiw : includesWord text (skillKey r) <;> simp [h, hiw]

theorem not_matched_and_unmatched (text r : String) :
    ¬(skillMatched text r = true ∧ skillUnmatched text r = true) := by
  unfold skillMatched skillUnmatched
  cases hiw : includesWord text (skillKey r) <;> simp [hiw]

theorem mem_foundUnique (text : String) (ts : List String) (s : String) :
    s ∈ foundUnique text ts ↔
      (∃ r, r ∈ ts ∧ skillMatched text r = true ∧ jsTrim r = s) ∧ ¬s.data = [] := by
  unfold foundUnique
  rw [mem_sortStrings, mem_unique]
  simp [List.mem_filter]
  tauto

theorem mem_missingUnique (text : String) (ts : List String) (s : String) :
    s ∈ missingUnique text ts ↔
      (∃ r, r ∈ ts ∧ skillUnmatched text r = true ∧ jsTrim r = s) ∧ ¬s.data = [] := by
  unfold missingUnique
  rw [mem_sortStrings, mem_unique]
  simp [List.mem_filter]
  tauto

end Analyzer

/-- Claim C2: for every text and catalog option, the `skillsFound` and
`missingSkills` lists returned by `analyzeResume` are disjoint as sets, and
their union (as sets) equals the deduplicated effective catalog — the
engine's deduplication by trimmed value, `unique`, applied to the skill list
the call actually uses. -/
theorem C2_partition_of_deduplicated_catalog (T : String) (options : Option (List String)) :
    (∀ s, ¬(s ∈ (Analyzer.analyzeResume T options).skillsFound ∧
            s ∈ (Analyzer.analyzeResume T options).missingSkills)) ∧
    (∀ s, (s ∈ (Analyzer.analyzeResume T options).skillsFound ∨
           s ∈ (Analyzer.analyzeResume T options).missingSkills) ↔
          s ∈ Analyzer.unique (Analyzer.effectiveSkills options)) := by
  have hfou : (Analyzer.analyzeResume T options).skillsFound =
      Analyzer.foundUnique (Analyzer.normalize T) (Analyzer.effectiveSkills options) := rfl
  have hmis : (Analyzer.analyzeResume T options).missingSkills =
      Analyzer.missingUnique (Analyzer.normalize T) (Analyzer.effectiveSkills options) := rfl
  rw [hfou, hmis]
  constructor
  · rintro s ⟨hf, hm⟩
    rcases (Analyzer.mem_foundUnique _ _ _).mp hf with ⟨⟨r1, _, hm1, he1⟩, _⟩
    rcases (Analyzer.mem_missingUnique _ _ _).mp hm with ⟨⟨r2, _, hm2, he2⟩, _⟩
    have h1 : Analyzer.skillMatched (Analyzer.normalize T) s = true := by
      rw [← he1, Analyzer.skillMatched_jsTrim]
      exact hm1
    have h2 : Analyzer.skillUnmatched (Analyzer.normalize T) s = true := by
      rw [← he2, Analyzer.skillUnmatched_jsTrim]
      exact hm2
    exact Analyzer.not_matched_and_unmatched (Analyzer.normalize T) s ⟨h1, h2⟩
  · intro s
    constructor
    · rintro (hf | hm)
      · rcases (Analyzer.mem_foundUnique _ _ _).mp hf with ⟨⟨r, hr, _, he⟩, hne⟩
        exact (Analyzer.mem_unique _ _).mpr ⟨List.mem_map.mpr ⟨r, hr, he⟩, hne⟩
      · rcases (Analyzer.mem_missingUnique _ _ _).mp hm with ⟨⟨r, hr, _, he⟩, hne⟩
        exact (Analyzer.mem_unique _ _).mpr ⟨List.mem_map.mpr ⟨r, hr, he⟩, hne⟩
    · intro hu
      rcases (Analyzer.mem_unique _ _).mp hu with ⟨hm, hne⟩
      rcases List.mem_map.mp hm with ⟨r, hr, rfl⟩
      have hkey : ¬Analyzer.skillKeyChars r = [] := by
        intro h0
        apply hne
        have hdata : Analyzer.jsTrimChars r.data = [] := by
          have := congrArg List.length h0
          simpa [Analyzer.skillKeyChars] using this
        exact hdata
      rcases Analyzer.matched_or_unmatched (Analyzer.normalize T) r hkey with hM | hU
      · exact Or.inl ((Analyzer.mem_foundUnique _ _ _).mpr ⟨⟨r, hr, hM, rfl⟩, hne⟩)
      · exact Or.inr ((Analyzer.mem_missingUnique _ _ _).mpr ⟨⟨r, hr, hU, rfl⟩, hne⟩)

/-- Claim C6: for every text and catalog option, the `skillsFound` and
`missingSkills` lists returned by `analyzeResume` are each sorted with
respect to the model's lexicographic comparator and deduplicated by trimmed
value: no duplicates, and every element is its own trimmed value. -/
theorem C6_outputs_deduplicated_sorted (T : String) (options : Option (List String)) :
    List.Sorted Analyzer.strLe (Analyzer.analyzeResume T options).skillsFound ∧
    List.Sorted Analyzer.strLe (Analyzer.analyzeResume T options).missingSkills ∧
    (Analyzer.analyzeResume T options).skillsFound.Nodup ∧
    (Analyzer.analyzeResume T options).missingSkills.Nodup ∧
    (∀ s ∈ (Analyzer.analyzeResume T options).skillsFound, Analyzer.jsTrim s = s) ∧
    (∀ s ∈ (Analyzer.analyzeResume T options).missingSkills, Analyzer.jsTrim s = s) := by
  have hfou : (Analyzer.analyzeResume T options).skillsFound =
      Analyzer.sortStrings (Analyzer.unique
        ((Analyzer.effectiveSkills options).filter
          (Analyzer.skillMatched (Analyzer.normalize T)))) := rfl
  have hmis : (Analyzer.analyzeResume T options).missingSkills =
      Analyzer.sortStrings (Analyzer.unique
        ((Analyzer.effectiveSkills options).filter
          (Analyzer.skillUnmatched (Analyzer.normalize T)))) := rfl
  rw [hfou, hmis]
  refine ⟨Analyzer.sorted_sortStrings _, Analyzer.sorted_sortStrings _,
    Analyzer.nodup_sortStrings (Analyzer.nodup_unique _),
    Analyzer.nodup_sortStrings (Analyzer.nodup_unique _), ?_, ?_⟩
  · intro s hs
    exact Analyzer.unique_trim_fixed _ s (Analyzer.mem_sortStrings.mp hs)
  · intro s hs
    exact Analyzer.unique_trim_fixed _ s (Analyzer.mem_sortStrings.mp hs)

namespace Analyzer

theorem includesWord_skillKey (text r : String) :
    includesWord text (skillKey r) = includesWord text (jsTrim r) := by
  show includesWordCore (text.data.map lowerChar) ((skillKeyChars r).map lowerChar) =
    includesWordCore (text.data.map lowerChar) ((jsTrimChars r.data).map lowerChar)
  unfold skillKeyChars
  rw [map_lowerChar_idem]

theorem skillKeyChars_ne_nil (r : String) (hne : ¬(jsTrim r).data = []) :
    ¬skillKeyChars r = [] := by
  intro h0
  apply hne
  have := congrArg List.length h0
  simpa [skillKeyChars] using this

theorem unique_filter_matched (text : String) (ts : List String) :
    List.Perm (unique (ts.filter (skillMatched text)))
      ((unique ts).filter (fun s => includesWord text s)) := by
  apply (List.perm_ext_iff_of_nodup (nodup_unique _) ((nodup_unique _).filter _)).mpr
  intro s
  rw [mem_unique, List.mem_filter, mem_unique]
  constructor
  · rintro ⟨hm, hne⟩
    rcases List.mem_map.mp hm with ⟨r, hrf, rfl⟩
    rcases List.mem_filter.mp hrf with ⟨hr, hmr⟩
    refine ⟨⟨List.mem_map.mpr ⟨r, hr, rfl⟩, hne⟩, ?_⟩
    have hiw : includesWord text (skillKey r) = true := by
      unfold skillMatched at hmr
      exact (Bool.and_eq_true_iff.mp hmr).2
    rw [← includesWord_skillKey]
    exact hiw
  · rintro ⟨⟨hm, hne⟩, hq⟩
    rcases List.mem_map.mp hm with ⟨r, hr, rfl⟩
    have hmr : skillMatched text r = true := by
      unfold skillMatched
      rw [Bool.and_eq_true_iff]
      refine ⟨by simp [skillKeyChars_ne_nil r hne], ?_⟩
      rw [includesWord_skillKey]
      exact hq
    exact ⟨List.mem_map.mpr ⟨r, List.mem_filter.mpr ⟨hr, hmr⟩, rfl⟩, hne⟩

theorem unique_filter_unmatched (text : String) (ts : List String) :
    List.Perm (unique (ts.filter (skillUnmatched text)))
      ((unique ts).filter (fun s => !includesWord text s)) := by
  apply (List.perm_ext_iff_of_nodup (nodup_unique _) ((nodup_unique _).filter _)).mpr
  intro s
  rw [mem_unique, List.mem_filter, mem_unique]
  constructor
  · rintro ⟨hm, hne⟩
    rcases List.mem_map.mp hm with ⟨r, hrf, rfl⟩
    rcases List.mem_filter.mp hrf with ⟨hr, hmr⟩
    refine ⟨⟨List.mem_map.mpr ⟨r, hr, rfl⟩, hne⟩, ?_⟩
    have hiw : (!includesWord text (skillKey r)) = true := by
      unfold skillUnmatched at hmr
      exact (Bool.and_eq_true_iff.mp hmr).2
    rw [Bool.not_eq_true'] at hiw ⊢
    rw [← includesWord_skillKey]
    exact hiw
  · rintro ⟨⟨hm, hne⟩, hq⟩
    rcases List.mem_map.mp hm with ⟨r, hr, rfl⟩
    have hmr : skillUnmatched text r = true := by
      unfold skillUnmatched
      rw [Bool.and_eq_true_iff]
      refine ⟨by simp [skillKeyChars_ne_nil r hne], ?_⟩
      rw [Bool.not_eq_true'] at hq ⊢
      rw [includesWord_skillKey]
      exact hq
    exact ⟨List.mem_map.mpr ⟨r, List.mem_filter.mpr ⟨hr, hmr⟩, rfl⟩, hne⟩

theorem length_foundUnique (text : String) (ts : List String) :
    (foundUnique text ts).length =
      ((unique ts).filter (fun s => includesWord text s)).length := by
  unfold foundUnique
  rw [(perm_sortStrings _).length_eq, (unique_filter_matched text ts).length_eq]

theorem length_missingUnique (text : String) (ts : List String) :
    (missingUnique text ts).length =
      ((unique ts).filter (fun s => !includesWord text s)).length := by
  unfold missingUnique
  rw [(perm_sortStrings _).length_eq, (unique_filter_unmatched text ts).length_eq]

end Analyzer

/-- Counterexample to claim C1 as stated: for the catalog
`["java", "java", "python"]` and the text `"java"`, the skill-coverage
component the code computes is `round(60 * 1 / 2) = 30` (from the
deduplicated partition), while the claim's formula over raw catalog entries
gives `round(60 * 2 / 3) = 40`. -/
theorem C1_counterexample_duplicate_catalog :
    Analyzer.coverageComponent "java" (some ["java", "java", "python"]) = 30 ∧
    Analyzer.roundHalfUp
      (60 * ((["java", "java", "python"].filter
        (Analyzer.skillMatched (Analyzer.normalize "java"))).length))
      (["java", "java", "python"] : List String).length = 40 ∧
    Analyzer.coverageComponent "java" (some ["java", "java", "python"]) ≠
      Analyzer.roundHalfUp
        (60 * ((["java", "java", "python"].filter
          (Analyzer.skillMatched (Analyzer.normalize "java"))).length))
        (["java", "java", "python"] : List String).length := by decide

/-- Claim C1 (amended): the skill-coverage component of the score computed by
`analyzeResume` is `skillCoverageScore` applied to the returned partition,
and it equals `round(60 * matchedCount / totalCatalogCount)` where both
counts are taken over the deduplicated effective catalog (entries trimmed,
duplicates by trimmed value removed, empty entries dropped); it contributes
`0` when that deduplicated catalog is empty. -/
theorem C1_skill_coverage_deduplicated (T : String) (options : Option (List String)) :
    Analyzer.coverageComponent T options =
      Analyzer.skillCoverageScore (Analyzer.analyzeResume T options).skillsFound
        (Analyzer.analyzeResume T options).missingSkills ∧
    Analyzer.coverageComponent T options = Analyzer.dedupCatalogCoverage T options := by
  refine ⟨rfl, ?_⟩
  unfold Analyzer.coverageComponent Analyzer.dedupCatalogCoverage Analyzer.skillCoverageScore
  rw [Analyzer.length_foundUnique, Analyzer.length_missingUnique,
    ← List.length_eq_length_filter_add]

namespace Analyzer

theorem filter_pairs_six (b1 b2 b3 b4 b5 b6 : Bool) (t1 t2 t3 t4 t5 t6 : String) :
    (([(b1, t1), (b2, t2), (b3, t3), (b4, t4), (b5, t5), (b6, t6)].filter
      (fun p => p.1)).map (fun p => p.2)) =
    (if b1 then [t1] else []) ++ (if b2 then [t2] else []) ++ (if b3 then [t3] else []) ++
    (if b4 then [t4] else []) ++ (if b5 then [t5] else []) ++ (if b6 then [t6] else []) := by
  cases b1 <;> cases b2 <;> cases b3 <;> cases b4 <;> cases b5 <;> cases b6 <;> rfl

end Analyzer

/-- Claim C3: `analyzeResume` emits exactly the suggestions whose conditions
hold, in the fixed order — missing skills section, missing experience
section, no bullet line, no quantifiable signal, non-empty `missingSkills`
(naming the first 8 missing skills joined with `", "` and appending `", ..."`
when more than 8 remain), and normalized text shorter than 900 characters;
no suggestion is suppressed because another fired. -/
theorem C3_suggestions_exact_and_ordered (T : String) (options : Option (List String)) :
    (Analyzer.analyzeResume T options).suggestions = Analyzer.specSuggestions T options := by
  show Analyzer.buildSuggestions (Analyzer.normalize T).data
    (Analyzer.detectSections (Analyzer.normalize T))
    (Analyzer.missingUnique (Analyzer.normalize T) (Analyzer.effectiveSkills options)) =
    Analyzer.specSuggestions T options
  unfold Analyzer.specSuggestions Analyzer.specSuggestionPairs Analyzer.buildSuggestions
  dsimp only
  rw [Analyzer.filter_pairs_six]
  rfl

namespace Analyzer

theorem eatWord_iff : ∀ (w t r : List Char), eatWord w t = some r ↔ t = w ++ r := by
  intro w
  induction w with
  | nil => intro t r; simp [eatWord]
  | cons c cs ih =>
    intro t r
    cases t with
    | nil => simp [eatWord]
    | cons d ds =>
      simp only [eatWord]
      split_ifs with h
      · subst h
        rw [ih ds r]
        simp
      · simp only [List.cons_append]
        constructor
        · intro hh; simp at hh
        · intro hh
          injection hh with h1 _
          exact absurd h1.symm h

theorem checkHere_iff (w t : List Char) :
    checkHere w t = true ↔ ∃ suf, t = w ++ suf ∧ tailBoundary suf = true := by
  unfold checkHere
  cases he : eatWord w t with
  | none =>
    dsimp only
    constructor
    · intro hh; simp at hh
    · rintro ⟨suf, rfl, _⟩
      have h2 : eatWord w (w ++ suf) = some suf := (eatWord_iff w (w ++ suf) suf).mpr rfl
      exact Option.noConfusion (he.symm.trans h2)
  | some rest =>
    dsimp only
    have ht : t = w ++ rest := (eatWord_iff w t rest).mp he
    subst ht
    constructor
    · intro hb; exact ⟨rest, rfl, hb⟩
    · rintro ⟨suf, heq, hb⟩
      have h2 : rest = suf := List.append_cancel_left heq
      rw [h2]; exact hb

theorem preBoundary_cons (prev : Option Char) (c : Char) (pre : List Char) :
    preBoundary prev (c :: pre) = preBoundary (some c) pre := by
  cases pre with
  | nil => rfl
  | cons p ps =>
    unfold preBoundary
    rw [List.getLast?_cons_cons]
    cases hp : (p :: ps).getLast? with
    | none => simp at hp
    | some d => rfl

theorem scanWord_iff (word : List Char) :
    ∀ (text : List Char) (prev : Option Char),
      scanWord word prev text = true ↔
        ∃ pre suf, text = pre ++ word ++ suf ∧ preBoundary prev pre = true ∧
          tailBoundary suf = true := by
  intro text
  induction text with
  | nil =>
    intro prev
    simp only [scanWord]
    rw [Bool.and_eq_true_iff, checkHere_iff]
    constructor
    · rintro ⟨hb, suf, hsuf, htb⟩
      rcases List.append_eq_nil.mp hsuf.symm with ⟨rfl, rfl⟩
      exact ⟨[], [], rfl, hb, htb⟩
    · rintro ⟨pre, suf, heq, hpre, htb⟩
      rcases List.append_eq_nil.mp heq.symm with ⟨h1, rfl⟩
      rcases List.append_eq_nil.mp h1 with ⟨rfl, rfl⟩
      exact ⟨hpre, [], rfl, rfl⟩
  | cons c ts ih =>
    intro prev
    simp only [scanWord]
    rw [Bool.or_eq_true, Bool.and_eq_true_iff, checkHere_iff, ih (some c)]
    constructor
    · rintro (⟨hb, suf, heq, htb⟩ | ⟨pre, suf, heq, hpre, htb⟩)
      · exact ⟨[], suf, by simpa using heq, hb, htb⟩
      · refine ⟨c :: pre, suf, ?_, ?_, htb⟩
        · simpa using congrArg (List.cons c) heq
        · rw [preBoundary_cons]; exact hpre
    · rintro ⟨pre, suf, heq, hpre, htb⟩
      cases pre with
      | nil =>
        left
        exact ⟨hpre, suf, by simpa using heq, htb⟩
      | cons p pre' =>
        right
        have heq' : c :: ts = p :: (pre' ++ word ++ suf) := by simpa using heq
        injection heq' with h1 h2
        subst h1
        refine ⟨pre', suf, h2, ?_, htb⟩
        rw [← preBoundary_cons prev c pre']
        exact hpre

theorem includesWordCore_iff (text word : List Char) :
    includesWordCore text word = true ↔ word ≠ [] ∧ FlankedOccurrence text word := by
  unfold includesWordCore
  split_ifs with h
  · simp [h]
  · rw [scanWord_iff]
    unfold FlankedOccurrence
    constructor
    · rintro ⟨pre, suf, heq, hpre, htb⟩
      refine ⟨h, pre, suf, heq, ?_, ?_⟩
      · intro d hd
        unfold preBoundary at hpre
        rw [hd] at hpre
        simpa using hpre
      · intro d hd
        cases suf with
        | nil => simp at hd
        | cons e es =>
          have h1 : e = d := by simpa using hd
          subst h1
          simpa [tailBoundary] using htb
    · rintro ⟨_, pre, suf, heq, hpre, hsuf⟩
      refine ⟨pre, suf, heq, ?_, ?_⟩
      · unfold preBoundary
        cases hp : pre.getLast? with
        | none => rfl
        | some d => simpa using hpre d hp
      · cases suf with
        | nil => rfl
        | cons e es => simpa [tailBoundary] using hsuf e rfl

end Analyzer

/-- Claim C4: the skill-matching predicate `includesWord` holds exactly when
the (case-folded) skill appears in the (case-folded) text flanked by
non-alphanumeric characters or string edges; in particular a text containing
only `"javascript"` does not match catalog entry `"java"`, while a text
containing `"ci/cd pipeline"` does match catalog entry `"ci/cd"`. -/
theorem C4_word_boundary_matching :
    (∀ text word : String, Analyzer.includesWord text word = true ↔
      (word.data ≠ [] ∧
        Analyzer.FlankedOccurrence (text.data.map Analyzer.lowerChar)
          (word.data.map Analyzer.lowerChar))) ∧
    Analyzer.includesWord "javascript" "java" = false ∧
    Analyzer.includesWord "ci/cd pipeline" "ci/cd" = true := by
  refine ⟨?_, by decide, by decide⟩
  intro text word
  rw [show Analyzer.includesWord text word =
      Analyzer.includesWordCore (text.data.map Analyzer.lowerChar)
        (word.data.map Analyzer.lowerChar) from rfl,
    Analyzer.includesWordCore_iff]
  simp [List.map_eq_nil_iff]
